import Mathlib

/-!
Verification of the ABI-directed argument encoder of `initia.js` and of the
`MoveAPI` client code in `src/client/lcd/api/MoveAPI.ts`.

The repository snapshot contains the caller (`MoveAPI.ts`) of the encoder,
while the encoder itself (`argsEncodeWithABI` from `util`, together with the
value coercer, the binary encoder and `AccAddress.fromHex`) is not part of the
snapshot.  Those missing components are modelled from the specification
(sections 3, 4.3, 4.4 and 4.5); each such definition carries a doc comment
starting with `Modelled from the spec:`.  Everything taken from
`MoveAPI.ts` cites the source lines instead.
-/

namespace Initia

/-- Modelled from the spec: section 3's `TypeDescriptor`, the tagged variant
produced by the type grammar parser (the parser itself is part of the missing
`util` code).  Variants: `Bool, U8 .. U256, Address, Signer, Vector,
StructTag(module, name, type_args), GenericParam(index),
Reference(t, mutable)`. -/
inductive TypeDescriptor where
  | bool
  | u8
  | u16
  | u32
  | u64
  | u128
  | u256
  | address
  | signer
  | vector (t : TypeDescriptor)
  | structTag (module_ name : String) (typeArgs : List TypeDescriptor)
  | genericParam (idx : Nat)
  | reference (t : TypeDescriptor) (mutable : Bool)

/-- Modelled from the spec: section 3's `RawArgument`, an untyped caller
supplied value — boolean, numeric (possibly as decimal string), text string,
ordered sequence, keyed mapping, or a pre-serialized byte string (the escape
hatch of section 4.3 for opaque structs). -/
inductive RawArgument where
  | bool (b : Bool)
  | num (n : Int)
  | str (s : String)
  | seq (xs : List RawArgument)
  | bytes (bs : List Nat)
  | map (fields : List (String × RawArgument))

/-- Modelled from the spec: the normalized typed value produced by the value
coercer (section 4.3) and consumed by the binary encoder (section 4.4).
Bytes are `Nat`s below 256. -/
inductive MoveValue where
  | bool (b : Bool)
  | uint (n : Nat)
  | address (bs : List Nat)
  | vec (xs : List MoveValue)
  | rawBytes (bs : List Nat)

/-- Modelled from the spec: the error taxonomy of section 7.  In the source,
`FunctionNotFoundError` is the `Error('function not found')` thrown at
`MoveAPI.ts:129`. -/
inductive EncodeError where
  | typeParseError
  | functionNotFoundError
  | arityMismatchError
  | typeMismatchError
  | integerOverflowError
  | invalidAddressError
  | unresolvedGenericError
deriving DecidableEq

/-- Modelled from the spec: section 3's `ExposedFunction` (name, ordered
parameter descriptors, generic slot count, entry flag), matching the ABI
document shape of section 6. -/
structure ExposedFunction where
  name : String
  params : List TypeDescriptor
  generic_type_params : Nat
  is_entry : Bool

/-- Modelled from the spec: section 3's `ModuleABI`, the decoded ABI document
(`core/move/types` is not in the snapshot); only its `exposed_functions`
list is consumed by `MoveAPI.ts:124`. -/
structure ModuleABI where
  exposed_functions : List ExposedFunction

/-! ## Byte-level primitives (spec section 4.4) -/

/-- Modelled from the spec: little-endian fixed-width integer encoding; first
argument is the byte width, second the value. -/
def toLEBytes : Nat → Nat → List Nat
  | 0, _ => []
  | w + 1, n => n % 256 :: toLEBytes w (n / 256)

/-- Inverse of `toLEBytes`: read `w` little-endian bytes, return the value and
the remaining bytes. -/
def fromLEBytes : Nat → List Nat → Option (Nat × List Nat)
  | 0, bs => some (0, bs)
  | _ + 1, [] => none
  | w + 1, b :: bs =>
    match fromLEBytes w bs with
    | some (n, rest) => some (n * 256 + b, rest)
    | none => none

/-- Modelled from the spec: unsigned LEB128 encoding of a natural number
(used as the element-count prefix of vectors). -/
def uleb128 (n : Nat) : List Nat :=
  if _h : n < 128 then [n]
  else (n % 128 + 128) :: uleb128 (n / 128)
decreasing_by exact Nat.div_lt_self (by omega) (by omega)

theorem uleb128_unfold (n : Nat) :
    uleb128 n = if n < 128 then [n] else (n % 128 + 128) :: uleb128 (n / 128) := by
  rw [uleb128]
  split <;> rfl

/-- Inverse of `uleb128`: read one unsigned LEB128 value, return it and the
remaining bytes. -/
def decodeUleb : List Nat → Option (Nat × List Nat)
  | [] => none
  | b :: bs =>
    if b < 128 then some (b, bs)
    else
      match decodeUleb bs with
      | some (n, rest) => some (n * 128 + (b - 128), rest)
      | none => none

/-! ## Value coercion (spec section 4.3) -/

/-- Decimal digit value of a character, if any. -/
def decVal (c : Char) : Option Nat :=
  if '0' ≤ c ∧ c ≤ '9' then some (c.toNat - '0'.toNat) else none

/-- Parse a non-empty all-digit character list as a decimal natural. -/
def parseDecDigits (cs : List Char) : Option Nat :=
  if cs.isEmpty then none
  else
    cs.foldl
      (fun acc c =>
        match acc, decVal c with
        | some n, some d => some (n * 10 + d)
        | _, _ => none)
      (some 0)

/-- Modelled from the spec: decimal numeric-string input of section 4.3, with
an optional leading minus sign (needed so that negative string inputs can be
rejected with `IntegerOverflowError` rather than a parse failure). -/
def parseIntStr (s : String) : Option Int :=
  match s.data with
  | '-' :: rest => (parseDecDigits rest).map (fun n => -(n : Int))
  | ds => (parseDecDigits ds).map (fun n => (n : Int))

/-- Modelled from the spec: coercion for an unsigned integer type of byte
width `w`; accepts a numeric or numeric-string input and fails with
`IntegerOverflowError` when the value is negative or exceeds `256 ^ w - 1`. -/
def coerceUInt (w : Nat) : RawArgument → Except EncodeError MoveValue
  | .num v =>
    if v < 0 ∨ (256 : Int) ^ w - 1 < v then .error .integerOverflowError
    else .ok (.uint v.toNat)
  | .str s =>
    match parseIntStr s with
    | some v =>
      if v < 0 ∨ (256 : Int) ^ w - 1 < v then .error .integerOverflowError
      else .ok (.uint v.toNat)
    | none => .error .typeMismatchError
  | _ => .error .typeMismatchError

/-- Modelled from the spec: `bool` coercion — a boolean or the literal strings
`"true"` / `"false"`; anything else is a `TypeMismatchError`. -/
def coerceBool : RawArgument → Except EncodeError MoveValue
  | .bool b => .ok (.bool b)
  | .str s =>
    if s = "true" then .ok (.bool true)
    else if s = "false" then .ok (.bool false)
    else .error .typeMismatchError
  | _ => .error .typeMismatchError

/-- Hexadecimal digit value of a character, if any. -/
def hexVal (c : Char) : Option Nat :=
  if '0' ≤ c ∧ c ≤ '9' then some (c.toNat - '0'.toNat)
  else if 'a' ≤ c ∧ c ≤ 'f' then some (c.toNat - 'a'.toNat + 10)
  else if 'A' ≤ c ∧ c ≤ 'F' then some (c.toNat - 'A'.toNat + 10)
  else none

/-- Drop a leading `0x` marker from a character list, if present. -/
def stripHexMark : List Char → List Char
  | '0' :: 'x' :: rest => rest
  | cs => cs

/-- Turn an even-length hex character list into bytes, two characters per
byte; a trailing odd character is ignored (inputs are always padded to the
even canonical width before this is called). -/
def hexPairsToBytes : List Char → List Nat
  | c1 :: c2 :: rest => ((hexVal c1).getD 0 * 16 + (hexVal c2).getD 0) :: hexPairsToBytes rest
  | _ => []

/-- Normalize an unprefixed hex character list: reject a wrong length or
character set, zero-pad to 64 characters, convert to 32 bytes. -/
def normHexChars (cs : List Char) : Option (List Nat) :=
  if cs.length = 0 ∨ 64 < cs.length ∨ ¬ (cs.all (fun c => (hexVal c).isSome)) = true then none
  else some (hexPairsToBytes (List.replicate (64 - cs.length) '0' ++ cs))

/-- Modelled from the spec: address normalization of section 4.3 — accept a
hex string with or without a `0x` marker, reject a wrong length or character
set, and zero-pad to the canonical fixed width (32 bytes, i.e. 64 hex
characters). -/
def normalizeAddress (s : String) : Option (List Nat) :=
  normHexChars (stripHexMark s.data)

/-- Modelled from the spec: `address` coercion — a string input is normalized,
and a wrong length or character set fails with `InvalidAddressError`. -/
def coerceAddress : RawArgument → Except EncodeError MoveValue
  | .str s =>
    match normalizeAddress s with
    | some bs => .ok (.address bs)
    | none => .error .invalidAddressError
  | _ => .error .typeMismatchError

/-- UTF-8 bytes of a single character, from its code point. -/
def utf8Bytes (c : Char) : List Nat :=
  let n := c.toNat
  if n < 128 then [n]
  else if n < 2048 then [192 + n / 64, 128 + n % 64]
  else if n < 65536 then [224 + n / 4096, 128 + n / 64 % 64, 128 + n % 64]
  else [240 + n / 262144, 128 + n / 4096 % 64, 128 + n / 64 % 64, 128 + n % 64]

/-- UTF-8 bytes of a string. -/
def strUtf8 (s : String) : List Nat :=
  (s.data.map utf8Bytes).flatten

/-- Modelled from the spec: `StructTag` coercion of section 4.3.  The ABI
document carries no struct field metadata (section 6), so a struct argument is
the pre-serialized byte pass-through, except for the string-like struct
`0x1::string::String` of section 4.4 which accepts text and is treated as a
`vector<u8>` of its UTF-8 bytes. -/
def coerceStruct (module_ name : String) : RawArgument → Except EncodeError MoveValue :=
  fun r =>
    if module_ = "0x1::string" ∧ name = "String" then
      match r with
      | .str s => .ok (.vec ((strUtf8 s).map MoveValue.uint))
      | _ => .error .typeMismatchError
    else
      match r with
      | .bytes bs => .ok (.rawBytes bs)
      | _ => .error .typeMismatchError

/-- Run a coercion over every element of a sequence, stopping at — and
surfacing — the first element's error. -/
def mapCoerce (g : RawArgument → Except EncodeError MoveValue) :
    List RawArgument → Except EncodeError (List MoveValue)
  | [] => .ok []
  | x :: xs =>
    match g x, mapCoerce g xs with
    | .error e, _ => .error e
    | .ok _, .error e => .error e
    | .ok v, .ok vs => .ok (v :: vs)

/-- Modelled from the spec: the value coercer of section 4.3, reconciling a
`RawArgument` against a `TypeDescriptor`.  `Reference` and `Signer` positions
are never coerced (they are skipped during alignment), and an unresolved
`GenericParam` fails with `UnresolvedGenericError`. -/
def coerce (t : TypeDescriptor) : RawArgument → Except EncodeError MoveValue :=
  match t with
  | .bool => coerceBool
  | .u8 => coerceUInt 1
  | .u16 => coerceUInt 2
  | .u32 => coerceUInt 4
  | .u64 => coerceUInt 8
  | .u128 => coerceUInt 16
  | .u256 => coerceUInt 32
  | .address => coerceAddress
  | .signer => fun _ => .error .typeMismatchError
  | .vector t => fun r =>
    match r with
    | .seq xs =>
      match mapCoerce (coerce t) xs with
      | .ok vs => .ok (.vec vs)
      | .error e => .error e
    | _ => .error .typeMismatchError
  | .structTag m n _ => coerceStruct m n
  | .genericParam _ => fun _ => .error .unresolvedGenericError
  | .reference _ _ => fun _ => .error .typeMismatchError

/-! ## Binary encoding (spec section 4.4) -/

/-- Byte width of the fixed-width unsigned integer types, `none` otherwise. -/
def byteWidth : TypeDescriptor → Option Nat
  | .u8 => some 1
  | .u16 => some 2
  | .u32 => some 4
  | .u64 => some 8
  | .u128 => some 16
  | .u256 => some 32
  | _ => none

/-- Encode a coerced unsigned integer at byte width `w` (little-endian). -/
def encodeUIntW (w : Nat) : MoveValue → List Nat
  | .uint n => toLEBytes w n
  | _ => []

/-- Modelled from the spec: the binary encoder of section 4.4, a pure function
of the type descriptor and the coerced value.  Fixed-width little-endian
integers; a single `0x00`/`0x01` byte for `bool`; a fixed 32-byte sequence for
`address` with no length prefix; an LEB128 element count followed by the
concatenated element encodings for `vector<T>`; verbatim bytes for the opaque
struct pass-through and `vector<u8>` form for the string-like struct.  Value
shapes that the coercer can never produce for the descriptor encode to `[]`. -/
def encodeTyped (t : TypeDescriptor) : MoveValue → List Nat :=
  match t with
  | .bool => fun v =>
    match v with
    | .bool b => [if b then 1 else 0]
    | _ => []
  | .u8 => encodeUIntW 1
  | .u16 => encodeUIntW 2
  | .u32 => encodeUIntW 4
  | .u64 => encodeUIntW 8
  | .u128 => encodeUIntW 16
  | .u256 => encodeUIntW 32
  | .address => fun v =>
    match v with
    | .address bs => bs
    | _ => []
  | .signer => fun _ => []
  | .vector t => fun v =>
    match v with
    | .vec xs => uleb128 xs.length ++ (xs.map (encodeTyped t)).flatten
    | _ => []
  | .structTag _ _ _ => fun v =>
    match v with
    | .rawBytes bs => bs
    | .vec xs => uleb128 xs.length ++ (xs.map (encodeUIntW 1)).flatten
    | _ => []
  | .genericParam _ => fun _ => []
  | .reference _ _ => fun _ => []

/-! ## Binary decoding (the inverse operation of spec section 8) -/

/-- Decode a fixed-width little-endian unsigned integer. -/
def decodeUIntW (w : Nat) (bs : List Nat) : Option (MoveValue × List Nat) :=
  match fromLEBytes w bs with
  | some (n, rest) => some (.uint n, rest)
  | none => none

/-- Decode `n` consecutive values with the given element decoder. -/
def decodeListN (dec : List Nat → Option (MoveValue × List Nat)) :
    Nat → List Nat → Option (List MoveValue × List Nat)
  | 0, bs => some ([], bs)
  | n + 1, bs =>
    match dec bs with
    | some (v, bs1) =>
      match decodeListN dec n bs1 with
      | some (vs, bs2) => some (v :: vs, bs2)
      | none => none
    | none => none

/-- Modelled from the spec: the inverse (decode) operation of section 8 for
the supported descriptors — primitives, `address` and `vector`; the opaque
struct pass-through carries no length information and is not decodable. -/
def decodeValue (t : TypeDescriptor) : List Nat → Option (MoveValue × List Nat) :=
  match t with
  | .bool => fun bs =>
    match bs with
    | b :: rest =>
      if b = 0 then some (.bool false, rest)
      else if b = 1 then some (.bool true, rest)
      else none
    | [] => none
  | .u8 => decodeUIntW 1
  | .u16 => decodeUIntW 2
  | .u32 => decodeUIntW 4
  | .u64 => decodeUIntW 8
  | .u128 => decodeUIntW 16
  | .u256 => decodeUIntW 32
  | .address => fun bs =>
    if 32 ≤ bs.length then some (.address (bs.take 32), bs.drop 32) else none
  | .vector t => fun bs =>
    match decodeUleb bs with
    | some (n, bs1) =>
      match decodeListN (decodeValue t) n bs1 with
      | some (vs, bs2) => some (.vec vs, bs2)
      | none => none
    | none => none
  | _ => fun _ => none

/-! ## Generic substitution and the orchestrator (spec section 4.5) -/

mutual
/-- Modelled from the spec: substitution of the caller-supplied concrete type
arguments into `GenericParam` placeholders; a slot with no concrete type fails
with `UnresolvedGenericError`. -/
def substGenerics (typeArgs : List TypeDescriptor) : TypeDescriptor → Except EncodeError TypeDescriptor
  | .genericParam i =>
    match typeArgs[i]? with
    | some t => .ok t
    | none => .error .unresolvedGenericError
  | .vector t =>
    match substGenerics typeArgs t with
    | .ok t2 => .ok (.vector t2)
    | .error e => .error e
  | .structTag m n ts =>
    match substList typeArgs ts with
    | .ok ts2 => .ok (.structTag m n ts2)
    | .error e => .error e
  | .reference t m =>
    match substGenerics typeArgs t with
    | .ok t2 => .ok (.reference t2 m)
    | .error e => .error e
  | t => .ok t

/-- Substitution over a list of type descriptors. -/
def substList (typeArgs : List TypeDescriptor) : List TypeDescriptor → Except EncodeError (List TypeDescriptor)
  | [] => .ok []
  | t :: ts =>
    match substGenerics typeArgs t, substList typeArgs ts with
    | .ok t2, .ok ts2 => .ok (t2 :: ts2)
    | .error e, _ => .error e
    | _, .error e => .error e
end

/-- Modelled from the spec: the implicit authorization parameters of section 3
— a `Signer` or `&Signer` parameter, which the caller never supplies. -/
def isSignerParam : TypeDescriptor → Bool
  | .signer => true
  | .reference .signer _ => true
  | _ => false

/-- Modelled from the spec: the explicit parameter descriptors, obtained by
dropping any leading `Signer`/`&Signer` parameter (section 4.5). -/
def explicitParams (ps : List TypeDescriptor) : List TypeDescriptor :=
  ps.dropWhile isSignerParam

/-- Processing of one (declared parameter, raw argument) pair: substitute the
generics, coerce the value, then encode it; the first error surfaces. -/
def argStep (typeArgs : List TypeDescriptor) (d : TypeDescriptor) (r : RawArgument) :
    Except EncodeError (List Nat) :=
  match substGenerics typeArgs d with
  | .error e => .error e
  | .ok d2 =>
    match coerce d2 r with
    | .error e => .error e
    | .ok v => .ok (encodeTyped d2 v)

/-- Drive `argStep` positionally over the aligned parameter and argument
lists; a length mismatch left over is an `ArityMismatchError`, and the first
failing argument's error aborts the whole run. -/
def encodeArgs (typeArgs : List TypeDescriptor) :
    List TypeDescriptor → List RawArgument → Except EncodeError (List (List Nat))
  | [], [] => .ok []
  | d :: ds, r :: rs =>
    match argStep typeArgs d r with
    | .error e => .error e
    | .ok b =>
      match encodeArgs typeArgs ds rs with
      | .error e => .error e
      | .ok rest => .ok (b :: rest)
  | _, _ => .error .arityMismatchError

/-- Modelled from the spec: the argument encoding orchestrator `encode` of
section 4.5 (the `argsEncodeWithABI` utility imported at `MoveAPI.ts:4`,
whose implementation is not in the snapshot): resolve the explicit parameter
list, fail with `ArityMismatchError` when its count differs from the raw
argument count, then substitute, coerce and encode each pair in order. -/
def argsEncodeWithABI (typeArgs : List TypeDescriptor) (args : List RawArgument)
    (f : ExposedFunction) : Except EncodeError (List (List Nat)) :=
  if (explicitParams f.params).length = args.length then
    encodeArgs typeArgs (explicitParams f.params) args
  else .error .arityMismatchError

/-! ## The `MoveAPI` client (from `src/client/lcd/api/MoveAPI.ts`) -/

/-- Lookup from `MoveAPI.ts:124-126`:
`module.exposed_functions.find(f => f.name === functionName)`. -/
def findFunction (m : ModuleABI) (functionName : String) : Option ExposedFunction :=
  m.exposed_functions.find? (fun f => f.name == functionName)

/-- Resolution from `MoveAPI.ts:124-130`: the throw of
`Error('function not found')` when the lookup misses.  Only the name is
inspected; the `is_entry` flag is not consulted. -/
def resolveFunction (m : ModuleABI) (functionName : String) : Except EncodeError ExposedFunction :=
  match findFunction m functionName with
  | some f => .ok f
  | none => .error .functionNotFoundError

/-- Argument encoding path of `executeEntryFunctionWithABI`
(`MoveAPI.ts:114-139`): resolve the function first, and only then run the
argument encoder over the raw arguments.  The network transmission of the
encoded list is outside the model. -/
def executeEntryFunctionWithABI (m : ModuleABI) (functionName : String)
    (typeArgs : List TypeDescriptor) (args : List RawArgument) :
    Except EncodeError (List (List Nat)) :=
  match resolveFunction m functionName with
  | .error e => .error e
  | .ok f => argsEncodeWithABI typeArgs args f

/-- Character-prefix test, the JS `String.prototype.startsWith` used at
`MoveAPI.ts:8`. -/
def strStartsWith (s p : String) : Bool :=
  p.data.isPrefixOf s.data

/-- From `MoveAPI.ts:7-9`: convert an address with `AccAddress.fromHex` when
it starts with `0x`, otherwise return it unchanged.  `AccAddress.fromHex`
lives in `core` (not in the snapshot) and is kept abstract as a function
parameter. -/
def convertIf (fromHex : String → String) (address : String) : String :=
  if strStartsWith address "0x" then fromHex address else address

/-- Request path of `MoveAPI.modules` (`MoveAPI.ts:52`). -/
def modulesPath (fromHex : String → String) (address : String) : String :=
  "/initia/move/v1/accounts/" ++ convertIf fromHex address ++ "/modules"

/-- Request path of `MoveAPI.module` (`MoveAPI.ts:71`). -/
def modulePath (fromHex : String → String) (address moduleName : String) : String :=
  "/initia/move/v1/accounts/" ++ convertIf fromHex address ++ "/modules/" ++ moduleName

/-- Request path of `MoveAPI.executeEntryFunction` (`MoveAPI.ts:91-93`). -/
def entryFunctionPath (fromHex : String → String) (address moduleName functionName : String) : String :=
  "/initia/move/v1/accounts/" ++ convertIf fromHex address ++ "/modules/" ++ moduleName
    ++ "/entry_functions/" ++ functionName

/-- Request path of `MoveAPI.resources` (`MoveAPI.ts:149`). -/
def resourcesPath (fromHex : String → String) (address : String) : String :=
  "/initia/move/v1/accounts/" ++ convertIf fromHex address ++ "/resources"

/-- Request path of `MoveAPI.resource` (`MoveAPI.ts:168`). -/
def resourcePath (fromHex : String → String) (address : String) : String :=
  "/initia/move/v1/accounts/" ++ convertIf fromHex address ++ "/resources/by_struct_tag"

/-- Request path of `MoveAPI.storageFee` (`MoveAPI.ts:210`). -/
def storageFeePath (fromHex : String → String) (address : String) : String :=
  "/initia/move/v1/storage_fees/" ++ convertIf fromHex address

/-! ## Lemmas about the byte-level primitives -/

theorem decodeUleb_uleb128 (n : Nat) (rest : List Nat) :
    decodeUleb (uleb128 n ++ rest) = some (n, rest) := by
  induction n using Nat.strong_induction_on with
  | _ n ih =>
    rw [uleb128_unfold]
    by_cases h : n < 128
    · simp [h, decodeUleb]
    · have hd : n / 128 < n := Nat.div_lt_self (by omega) (by omega)
      simp only [if_neg h, List.cons_append, decodeUleb]
      rw [if_neg (by omega), ih (n / 128) hd]
      show some (n / 128 * 128 + (n % 128 + 128 - 128), rest) = some (n, rest)
      have heq : n / 128 * 128 + (n % 128 + 128 - 128) = n := by omega
      rw [heq]

theorem fromLEBytes_toLEBytes (w : Nat) : ∀ (n : Nat), n < 256 ^ w → ∀ (rest : List Nat),
    fromLEBytes w (toLEBytes w n ++ rest) = some (n, rest) := by
  induction w with
  | zero =>
    intro n hn rest
    have : n = 0 := by simpa using hn
    simp [this, toLEBytes, fromLEBytes]
  | succ w ih =>
    intro n hn rest
    have hmul : 256 ^ (w + 1) = 256 ^ w * 256 := pow_succ 256 w
    have hd : n / 256 < 256 ^ w := by omega
    simp only [toLEBytes, List.cons_append, fromLEBytes, List.append_eq]
    rw [ih (n / 256) hd]
    show some (n / 256 * 256 + n % 256, rest) = some (n, rest)
    have heq : n / 256 * 256 + n % 256 = n := by omega
    rw [heq]

/-! ## Lemmas about address normalization -/

theorem hexPairsToBytes_length : ∀ cs : List Char, (hexPairsToBytes cs).length = cs.length / 2
  | [] => by simp [hexPairsToBytes]
  | [_] => by simp [hexPairsToBytes]
  | _ :: _ :: rest => by
    simp only [hexPairsToBytes, List.length_cons, hexPairsToBytes_length rest]
    omega

theorem normHexChars_length {cs : List Char} {bs : List Nat} (h : normHexChars cs = some bs) :
    bs.length = 32 := by
  rw [normHexChars] at h
  split at h
  · exact absurd h (by simp)
  · rename_i hcond
    push_neg at hcond
    obtain rfl : bs = _ := (Option.some.inj h).symm
    rw [hexPairsToBytes_length]
    simp only [List.length_append, List.length_replicate]
    omega

theorem normalizeAddress_length {s : String} {bs : List Nat} (h : normalizeAddress s = some bs) :
    bs.length = 32 :=
  normHexChars_length h

/-! ## Width bridges between the descriptor and the integer codecs -/

theorem coerce_width {t : TypeDescriptor} {w : Nat} (h : byteWidth t = some w) :
    coerce t = coerceUInt w := by
  cases t <;> simp_all [byteWidth] <;> subst h <;> rfl

theorem encodeTyped_width {t : TypeDescriptor} {w : Nat} (h : byteWidth t = some w) :
    encodeTyped t = encodeUIntW w := by
  cases t <;> simp_all [byteWidth] <;> subst h <;> rfl

theorem decodeValue_width {t : TypeDescriptor} {w : Nat} (h : byteWidth t = some w) :
    decodeValue t = decodeUIntW w := by
  cases t <;> simp_all [byteWidth] <;> subst h <;> rfl

/-! ## Well-formed coerced values and the round-trip property -/

/-- The coerced values the coercer can produce for a given descriptor, as far
as the decodable fragment is concerned. -/
inductive WellFormed : TypeDescriptor → MoveValue → Prop
  | bool (b : Bool) : WellFormed .bool (.bool b)
  | uint {t : TypeDescriptor} {w : Nat} (n : Nat) (hw : byteWidth t = some w)
      (hn : n < 256 ^ w) : WellFormed t (.uint n)
  | address (bs : List Nat) (h : bs.length = 32) : WellFormed .address (.address bs)
  | vec {t : TypeDescriptor} (xs : List MoveValue) (h : ∀ v ∈ xs, WellFormed t v) :
      WellFormed (.vector t) (.vec xs)

/-- The descriptors for which the inverse (decode) operation exists: the
primitives, `address`, and vectors of supported descriptors.  The opaque
struct pass-through carries no length information and is excluded. -/
inductive Supported : TypeDescriptor → Prop
  | bool : Supported .bool
  | uint {t : TypeDescriptor} {w : Nat} (h : byteWidth t = some w) : Supported t
  | address : Supported .address
  | vector {t : TypeDescriptor} (h : Supported t) : Supported (.vector t)

theorem coerceUInt_ok {w : Nat} {r : RawArgument} {v : MoveValue}
    (h : coerceUInt w r = .ok v) : ∃ n, v = .uint n ∧ n < 256 ^ w := by
  have hcast : ((256 ^ w : Nat) : Int) = (256 : Int) ^ w := by push_cast; ring
  cases r with
  | num x =>
    rw [coerceUInt] at h
    split at h
    · exact absurd h (by simp)
    · rename_i hb
      push_neg at hb
      refine ⟨x.toNat, by simpa using h.symm, ?_⟩
      omega
  | str s =>
    rw [coerceUInt] at h
    split at h
    · rename_i x hx
      split at h
      · exact absurd h (by simp)
      · rename_i hb
        push_neg at hb
        refine ⟨x.toNat, by simpa using h.symm, ?_⟩
        omega
    · exact absurd h (by simp)
  | bool b => exact absurd h (by simp [coerceUInt])
  | seq xs => exact absurd h (by simp [coerceUInt])
  | bytes bs => exact absurd h (by simp [coerceUInt])
  | map fields => exact absurd h (by simp [coerceUInt])

theorem mapCoerce_wf {t : TypeDescriptor} {g : RawArgument → Except EncodeError MoveValue}
    (hg : ∀ {r v}, g r = .ok v → WellFormed t v) :
    ∀ {xs : List RawArgument} {vs : List MoveValue},
      mapCoerce g xs = .ok vs → ∀ v ∈ vs, WellFormed t v := by
  intro xs
  induction xs with
  | nil =>
    intro vs h v hv
    rw [mapCoerce] at h
    obtain rfl : vs = [] := by simpa using h.symm
    simp at hv
  | cons x xs ih =>
    intro vs h v hv
    rw [mapCoerce] at h
    cases hx : g x with
    | error e => rw [hx] at h; exact absurd h (by simp)
    | ok u =>
      cases hxs : mapCoerce g xs with
      | error e => rw [hx, hxs] at h; exact absurd h (by simp)
      | ok us =>
        rw [hx, hxs] at h
        obtain rfl : vs = u :: us := by simpa using h.symm
        rcases List.mem_cons.mp hv with rfl | hmem
        · exact hg hx
        · exact ih hxs v hmem

theorem coerce_wf : ∀ {t : TypeDescriptor}, Supported t →
    ∀ {r : RawArgument} {v : MoveValue}, coerce t r = .ok v → WellFormed t v := by
  intro t hsup
  induction hsup with
  | bool =>
    intro r v h
    cases r with
    | bool b =>
      obtain rfl : v = .bool b := by simpa [coerce, coerceBool] using h.symm
      exact .bool b
    | str s =>
      simp only [coerce, coerceBool] at h
      split at h
      · obtain rfl : v = .bool true := by simpa using h.symm
        exact .bool true
      · split at h
        · obtain rfl : v = .bool false := by simpa using h.symm
          exact .bool false
        · exact absurd h (by simp)
    | num x => exact absurd h (by simp [coerce, coerceBool])
    | seq xs => exact absurd h (by simp [coerce, coerceBool])
    | bytes bs => exact absurd h (by simp [coerce, coerceBool])
    | map fields => exact absurd h (by simp [coerce, coerceBool])
  | uint hw =>
    intro r v h
    rw [coerce_width hw] at h
    obtain ⟨n, rfl, hn⟩ := coerceUInt_ok h
    exact .uint n hw hn
  | address =>
    intro r v h
    cases r with
    | str s =>
      simp only [coerce, coerceAddress] at h
      cases hn : normalizeAddress s with
      | none => rw [hn] at h; exact absurd h (by simp)
      | some bs =>
        rw [hn] at h
        obtain rfl : v = .address bs := by simpa using h.symm
        exact .address bs (normalizeAddress_length hn)
    | bool b => exact absurd h (by simp [coerce, coerceAddress])
    | num x => exact absurd h (by simp [coerce, coerceAddress])
    | seq xs => exact absurd h (by simp [coerce, coerceAddress])
    | bytes bs => exact absurd h (by simp [coerce, coerceAddress])
    | map fields => exact absurd h (by simp [coerce, coerceAddress])
  | vector hsub ih =>
    intro r v h
    cases r with
    | seq xs =>
      simp only [coerce] at h
      cases hm : mapCoerce (coerce _) xs with
      | error e => rw [hm] at h; exact absurd h (by simp)
      | ok vs =>
        rw [hm] at h
        obtain rfl : v = .vec vs := by simpa using h.symm
        exact .vec vs (mapCoerce_wf (fun {r v} hr => ih hr) hm)
    | bool b => exact absurd h (by simp [coerce])
    | num x => exact absurd h (by simp [coerce])
    | str s => exact absurd h (by simp [coerce])
    | bytes bs => exact absurd h (by simp [coerce])
    | map fields => exact absurd h (by simp [coerce])

theorem decodeListN_encode (t : TypeDescriptor) : ∀ (xs : List MoveValue),
    (∀ v ∈ xs, ∀ rest, decodeValue t (encodeTyped t v ++ rest) = some (v, rest)) →
    ∀ rest : List Nat,
      decodeListN (decodeValue t) xs.length ((xs.map (encodeTyped t)).flatten ++ rest) =
        some (xs, rest)
  | [], _, rest => by simp [decodeListN]
  | x :: xs, h, rest => by
    have h1 := h x (List.mem_cons_self x xs)
    have h2 := decodeListN_encode t xs (fun v hv r => h v (List.mem_cons_of_mem x hv) r) rest
    simp only [List.map_cons, List.flatten_cons, List.length_cons, List.append_assoc,
      decodeListN, h1, h2]

theorem encode_decode {t : TypeDescriptor} {v : MoveValue} (h : WellFormed t v) :
    ∀ rest : List Nat, decodeValue t (encodeTyped t v ++ rest) = some (v, rest) := by
  induction h with
  | bool b =>
    intro rest
    cases b <;> simp [encodeTyped, decodeValue]
  | uint n hw hn =>
    intro rest
    rw [encodeTyped_width hw, decodeValue_width hw]
    simp only [encodeUIntW, decodeUIntW]
    rw [fromLEBytes_toLEBytes _ n hn rest]
  | address bs hlen =>
    intro rest
    simp only [encodeTyped, decodeValue]
    rw [if_pos (by simp [hlen])]
    rw [← hlen, List.take_left, List.drop_left]
  | vec xs hwf ih =>
    intro rest
    simp only [encodeTyped, decodeValue, List.append_assoc, decodeUleb_uleb128,
      decodeListN_encode _ xs ih rest]

/-! ## Lemmas about the orchestrator -/

theorem encodeArgs_ok (ta : List TypeDescriptor) :
    ∀ (ds : List TypeDescriptor) (rs : List RawArgument) (out : List (List Nat)),
      encodeArgs ta ds rs = .ok out →
      out.length = ds.length ∧
        ∀ i (h1 : i < out.length) (h2 : i < ds.length) (h3 : i < rs.length),
          argStep ta ds[i] rs[i] = .ok out[i]
  | [], [], out, h => by
    obtain rfl : out = [] := by simpa [encodeArgs] using h.symm
    exact ⟨rfl, fun i h1 => absurd h1 (by simp)⟩
  | [], _ :: _, out, h => absurd h (by simp [encodeArgs])
  | _ :: _, [], out, h => absurd h (by simp [encodeArgs])
  | d :: ds, r :: rs, out, h => by
    rw [encodeArgs] at h
    cases ha : argStep ta d r with
    | error e => rw [ha] at h; exact absurd h (by simp)
    | ok b =>
      cases he : encodeArgs ta ds rs with
      | error e => rw [ha, he] at h; exact absurd h (by simp)
      | ok rest =>
        rw [ha, he] at h
        obtain rfl : out = b :: rest := by simpa using h.symm
        obtain ⟨hlen, hget⟩ := encodeArgs_ok ta ds rs rest he
        refine ⟨by simp [hlen], ?_⟩
        intro i h1 h2 h3
        match i with
        | 0 => simpa using ha
        | i + 1 =>
          simp only [List.getElem_cons_succ]
          exact hget i (by simpa using h1) (by simpa using h2) (by simpa using h3)

theorem encodeArgs_error (ta : List TypeDescriptor) :
    ∀ (ds : List TypeDescriptor) (rs : List RawArgument) (i : Nat) (e : EncodeError)
      (h2 : i < ds.length) (h3 : i < rs.length),
      (∀ j (hj2 : j < ds.length) (hj3 : j < rs.length), j < i →
        ∃ b, argStep ta ds[j] rs[j] = .ok b) →
      argStep ta ds[i] rs[i] = .error e →
      encodeArgs ta ds rs = .error e
  | [], _, i, _, h2, _, _, _ => absurd h2 (by simp)
  | _ :: _, [], i, _, _, h3, _, _ => absurd h3 (by simp)
  | d :: ds, r :: rs, 0, e, h2, h3, hprev, herr => by
    simp only [List.getElem_cons_zero] at herr
    rw [encodeArgs, herr]
  | d :: ds, r :: rs, i + 1, e, h2, h3, hprev, herr => by
    obtain ⟨b, hb⟩ := hprev 0 (by simp) (by simp) (by omega)
    simp only [List.getElem_cons_zero] at hb
    simp only [List.getElem_cons_succ] at herr
    rw [encodeArgs, hb]
    rw [encodeArgs_error ta ds rs i e (by simpa using h2) (by simpa using h3)
      (fun j hj2 hj3 hji => by
        have := hprev (j + 1) (by simpa using hj2) (by simpa using hj3) (by omega)
        simpa using this)
      herr]

/-! ## Concrete fixtures used by witnesses and the counterexample -/

/-- A module whose only exposed function is named `foo` and is not an entry
point (`is_entry = false`). -/
def m0 : ModuleABI := ⟨[⟨"foo", [], 0, false⟩]⟩

/-- A function with a single explicit `u8` parameter. -/
def f1 : ExposedFunction := ⟨"bar", [.u8], 0, true⟩

/-- The address `1` zero-padded to the full 64-hex-character canonical width,
with the `0x` marker. -/
def padded64hex : String :=
  "0x0000000000000000000000000000000000000000000000000000000000000001"

/-- The address `1` zero-padded to the full 64-hex-character canonical width,
without the `0x` marker. -/
def bare64hex : String :=
  "0000000000000000000000000000000000000000000000000000000000000001"

/-- The canonical 32-byte form of the address `1`. -/
def canonicalOne : List Nat := List.replicate 31 0 ++ [1]

/-! ## Claim theorems -/

/-- Claim C1: when no exposed function with the requested name exists in the
module's `exposed_functions` list, `executeEntryFunctionWithABI` fails with
`FunctionNotFoundError`, for every type-argument and raw-argument list — in
particular no argument is coerced or encoded before the check succeeds. -/
theorem execute_fails_when_function_missing (m : ModuleABI) (fn : String)
    (ta : List TypeDescriptor) (args : List RawArgument)
    (h : ∀ f ∈ m.exposed_functions, f.name ≠ fn) :
    executeEntryFunctionWithABI m fn ta args = .error .functionNotFoundError := by
  have hnone : findFunction m fn = none := by
    rw [findFunction, List.find?_eq_none]
    intro f hf
    simp [h f hf]
  rw [executeEntryFunctionWithABI, resolveFunction, hnone]

theorem execute_fails_when_function_missing_witness :
    executeEntryFunctionWithABI m0 "baz" [] [RawArgument.num 1] =
      .error .functionNotFoundError :=
  execute_fails_when_function_missing m0 "baz" [] [RawArgument.num 1]
    (by
      intro f hf
      obtain rfl : f = ⟨"foo", [], 0, false⟩ := by simpa [m0] using hf
      decide)

/-- Claim C2 counterexample: in `m0` the function `foo` exists with
`is_entry = false`, yet resolution succeeds and the call proceeds all the way
to an encoded (empty) argument list instead of failing with
`FunctionNotFoundError`. -/
theorem resolve_ignores_entry_flag_cex :
    (∃ f ∈ m0.exposed_functions, f.name = "foo" ∧ f.is_entry = false) ∧
    executeEntryFunctionWithABI m0 "foo" [] [] = .ok [] ∧
    executeEntryFunctionWithABI m0 "foo" [] [] ≠ .error .functionNotFoundError := by
  refine ⟨⟨⟨"foo", [], 0, false⟩, by simp [m0], rfl, rfl⟩, rfl, ?_⟩
  intro h
  rw [show executeEntryFunctionWithABI m0 "foo" [] [] = .ok [] from rfl] at h
  exact Except.noConfusion h

/-- Claim C2 (amended): resolution fails with `FunctionNotFoundError` exactly
when no exposed function of that name exists; the `is_entry` flag is never
consulted, and any function found by name proceeds to argument encoding. -/
theorem resolve_checks_only_name (m : ModuleABI) (fn : String)
    (ta : List TypeDescriptor) (args : List RawArgument) :
    (resolveFunction m fn = .error .functionNotFoundError ↔
      ∀ f ∈ m.exposed_functions, f.name ≠ fn) ∧
    (∀ f, findFunction m fn = some f →
      executeEntryFunctionWithABI m fn ta args = argsEncodeWithABI ta args f) := by
  constructor
  · constructor
    · intro h f hf hname
      cases hfind : findFunction m fn with
      | some g => rw [resolveFunction, hfind] at h; exact Except.noConfusion h
      | none =>
        rw [findFunction, List.find?_eq_none] at hfind
        exact hfind f hf (by simp [hname])
    · intro h
      have hnone : findFunction m fn = none := by
        rw [findFunction, List.find?_eq_none]
        intro f hf
        simp [h f hf]
      rw [resolveFunction, hnone]
  · intro f hf
    rw [executeEntryFunctionWithABI, resolveFunction, hf]

theorem resolve_checks_only_name_witness :
    executeEntryFunctionWithABI m0 "foo" [] [] =
      argsEncodeWithABI [] [] ⟨"foo", [], 0, false⟩ :=
  (resolve_checks_only_name m0 "foo" [] []).2 ⟨"foo", [], 0, false⟩ rfl

/-- Claim C3: whenever the raw-argument count differs from the explicit
parameter count (all parameters minus leading signer parameters), the encoder
fails with `ArityMismatchError` and returns no list at all. -/
theorem argsEncode_arity_mismatch (ta : List TypeDescriptor) (args : List RawArgument)
    (f : ExposedFunction) (h : (explicitParams f.params).length ≠ args.length) :
    argsEncodeWithABI ta args f = .error .arityMismatchError := by
  rw [argsEncodeWithABI, if_neg h]

theorem argsEncode_arity_mismatch_witness :
    argsEncodeWithABI [] [] f1 = .error .arityMismatchError ∧
    argsEncodeWithABI [] [RawArgument.num 1, RawArgument.num 2] f1 =
      .error .arityMismatchError :=
  ⟨argsEncode_arity_mismatch [] [] f1 (by decide),
   argsEncode_arity_mismatch [] [RawArgument.num 1, RawArgument.num 2] f1 (by decide)⟩

/-- Claim C4: on success the encoded list has exactly one entry per explicit
parameter, the `i`-th entry being the substitute-coerce-encode result of the
`i`-th explicit parameter against the `i`-th raw argument (nothing dropped or
reordered); and when the first failing argument fails with error `e`, the
whole call returns `.error e` and no list. -/
theorem argsEncode_allOrNothing (ta : List TypeDescriptor) (args : List RawArgument)
    (f : ExposedFunction) :
    (∀ out, argsEncodeWithABI ta args f = .ok out →
      out.length = (explicitParams f.params).length ∧
      ∀ i (h1 : i < out.length) (h2 : i < (explicitParams f.params).length)
          (h3 : i < args.length),
        argStep ta (explicitParams f.params)[i] args[i] = .ok out[i]) ∧
    (∀ i e (h2 : i < (explicitParams f.params).length) (h3 : i < args.length),
      (explicitParams f.params).length = args.length →
      (∀ j (hj2 : j < (explicitParams f.params).length) (hj3 : j < args.length), j < i →
        ∃ b, argStep ta (explicitParams f.params)[j] args[j] = .ok b) →
      argStep ta (explicitParams f.params)[i] args[i] = .error e →
      argsEncodeWithABI ta args f = .error e) := by
  constructor
  · intro out h
    have hlen : (explicitParams f.params).length = args.length := by
      by_contra hne
      rw [argsEncodeWithABI, if_neg hne] at h
      exact Except.noConfusion h
    rw [argsEncodeWithABI, if_pos hlen] at h
    exact encodeArgs_ok ta (explicitParams f.params) args out h
  · intro i e h2 h3 hlen hprev herr
    rw [argsEncodeWithABI, if_pos hlen]
    exact encodeArgs_error ta (explicitParams f.params) args i e h2 h3 hprev herr

theorem argsEncode_allOrNothing_witness :
    argsEncodeWithABI [] [RawArgument.num 300] f1 = .error .integerOverflowError :=
  (argsEncode_allOrNothing [] [RawArgument.num 300] f1).2 0 .integerOverflowError
    (by decide) (by decide) (by decide)
    (fun j hj2 hj3 hj => absurd hj (Nat.not_lt_zero j)) rfl

/-- Claim C5: coercing `300` against `u8` fails with `IntegerOverflowError`,
coercing `255` succeeds and encodes to the single byte `0xFF = 255`; and in
general, for every unsigned integer type of byte width `w`, a numeric or
numeric-string input that is negative or exceeds `256 ^ w - 1` fails with
`IntegerOverflowError`. -/
theorem coerce_uint_bounds :
    coerce .u8 (.num 300) = .error .integerOverflowError ∧
    coerce .u8 (.num 255) = .ok (.uint 255) ∧
    encodeTyped .u8 (.uint 255) = [255] ∧
    (∀ (t : TypeDescriptor) (w : Nat) (v : Int), byteWidth t = some w →
      (v < 0 ∨ (256 : Int) ^ w - 1 < v) →
      coerce t (.num v) = .error .integerOverflowError) ∧
    (∀ (t : TypeDescriptor) (w : Nat) (s : String) (v : Int), byteWidth t = some w →
      parseIntStr s = some v → (v < 0 ∨ (256 : Int) ^ w - 1 < v) →
      coerce t (.str s) = .error .integerOverflowError) := by
  refine ⟨rfl, rfl, rfl, ?_, ?_⟩
  · intro t w v hw hb
    rw [coerce_width hw, coerceUInt, if_pos hb]
  · intro t w s v hw hp hb
    rw [coerce_width hw, coerceUInt, hp]
    show (if v < 0 ∨ (256 : Int) ^ w - 1 < v then Except.error EncodeError.integerOverflowError
      else Except.ok (MoveValue.uint v.toNat)) = Except.error EncodeError.integerOverflowError
    rw [if_pos hb]

theorem coerce_uint_bounds_witness :
    coerce .u16 (.num 70000) = .error .integerOverflowError ∧
    coerce .u8 (.str "300") = .error .integerOverflowError ∧
    coerce .u8 (.num (-1)) = .error .integerOverflowError :=
  ⟨coerce_uint_bounds.2.2.2.1 .u16 2 70000 rfl (by norm_num),
   coerce_uint_bounds.2.2.2.2 .u8 1 "300" 300 rfl rfl (by norm_num),
   coerce_uint_bounds.2.2.2.1 .u8 1 (-1) rfl (by norm_num)⟩

/-- Claim C6: the sequence `[1,2,3]` coerced and encoded against `vector<u8>`
yields exactly `0x03 0x01 0x02 0x03`; in general a vector encodes as the
unsigned LEB128 element count followed by the elements' encodings
concatenated in order with no padding, and the empty sequence is valid,
encoding as `uleb128 0 = [0]` followed by a zero-length element list. -/
theorem vector_encoding :
    coerce (.vector .u8) (.seq [.num 1, .num 2, .num 3]) =
      .ok (.vec [.uint 1, .uint 2, .uint 3]) ∧
    encodeTyped (.vector .u8) (.vec [.uint 1, .uint 2, .uint 3]) = [3, 1, 2, 3] ∧
    (∀ (t : TypeDescriptor) (xs : List MoveValue),
      encodeTyped (.vector t) (.vec xs) =
        uleb128 xs.length ++ (xs.map (encodeTyped t)).flatten) ∧
    (∀ t : TypeDescriptor, coerce (.vector t) (.seq []) = .ok (.vec [])) ∧
    encodeTyped (.vector .u8) (.vec []) = uleb128 0 ++ [] ∧
    uleb128 0 = [0] := by
  refine ⟨rfl, ?_, fun t xs => rfl, fun t => rfl, rfl, ?_⟩
  · simp [encodeTyped, uleb128_unfold, encodeUIntW, toLEBytes]
  · rw [uleb128_unfold]
    simp

/-- Claim C7: `"0x1"`, its zero-padded 64-character form with the `0x` marker,
and the same form without the marker all coerce to the identical canonical
32-byte address, which encodes fixed-width as exactly those bytes; and every
string whose unprefixed hex part has a wrong length or character set fails
with `InvalidAddressError`. -/
theorem address_normalization :
    coerce .address (.str "0x1") = .ok (.address canonicalOne) ∧
    coerce .address (.str padded64hex) = .ok (.address canonicalOne) ∧
    coerce .address (.str bare64hex) = .ok (.address canonicalOne) ∧
    encodeTyped .address (.address canonicalOne) = canonicalOne ∧
    canonicalOne.length = 32 ∧
    (∀ s : String,
      ((stripHexMark s.data).length = 0 ∨ 64 < (stripHexMark s.data).length ∨
        ¬ ((stripHexMark s.data).all (fun c => (hexVal c).isSome)) = true) →
      coerce .address (.str s) = .error .invalidAddressError) := by
  refine ⟨rfl, rfl, rfl, rfl, rfl, ?_⟩
  intro s h
  have hnone : normalizeAddress s = none := by
    rw [normalizeAddress, normHexChars, if_pos h]
  show coerceAddress (.str s) = .error .invalidAddressError
  rw [coerceAddress, hnone]

theorem address_normalization_witness :
    coerce .address (.str "xyz") = .error .invalidAddressError ∧
    coerce .address (.str "") = .error .invalidAddressError :=
  ⟨address_normalization.2.2.2.2.2 "xyz" (by right; right; decide),
   address_normalization.2.2.2.2.2 "" (by left; decide)⟩

/-- Claim C8: the encoder is deterministic — it is a pure function of the
descriptor and the coerced value, so any two coercions of the same
(descriptor, raw value) pair encode to byte-identical output. -/
theorem encoding_deterministic (t : TypeDescriptor) (r : RawArgument)
    (v1 v2 : MoveValue) (h1 : coerce t r = .ok v1) (h2 : coerce t r = .ok v2) :
    encodeTyped t v1 = encodeTyped t v2 := by
  rw [h1] at h2
  injection h2 with h
  rw [h]

theorem encoding_deterministic_witness :
    encodeTyped .u8 (.uint 7) = encodeTyped .u8 (.uint 7) :=
  encoding_deterministic .u8 (.num 7) (.uint 7) (.uint 7) rfl rfl

/-- Claim C9: for every supported descriptor (primitives, `address`, and
vectors thereof) and every value the coercer produced for it, the inverse
decode operation applied to the encoder's bytes yields the original value,
consuming the bytes exactly. -/
theorem coerce_encode_decode_roundtrip (t : TypeDescriptor) (r : RawArgument)
    (v : MoveValue) (hs : Supported t) (hc : coerce t r = .ok v) :
    decodeValue t (encodeTyped t v) = some (v, []) := by
  have hwf := coerce_wf hs hc
  have h := encode_decode hwf []
  simpa using h

theorem coerce_encode_decode_roundtrip_witness :
    decodeValue (.vector .u8) (encodeTyped (.vector .u8) (.vec [.uint 5, .uint 9])) =
      some (.vec [.uint 5, .uint 9], []) :=
  coerce_encode_decode_roundtrip (.vector .u8) (.seq [.num 5, .num 9])
    (.vec [.uint 5, .uint 9]) (Supported.vector (Supported.uint rfl)) rfl

/-- Claim C10: `convertIf` returns a non-`0x` address unchanged and applies
`AccAddress.fromHex` to a `0x`-prefixed one, and every address-taking
`MoveAPI` endpoint (modules, module, executeEntryFunction, resources,
resource, storageFee) embeds the converted form in its request path. -/
theorem convertIf_spec (fromHex : String → String) (s moduleName functionName : String) :
    (strStartsWith s "0x" = false → convertIf fromHex s = s) ∧
    (strStartsWith s "0x" = true → convertIf fromHex s = fromHex s) ∧
    (∃ pre post, modulesPath fromHex s = pre ++ convertIf fromHex s ++ post) ∧
    (∃ pre post, modulePath fromHex s moduleName = pre ++ convertIf fromHex s ++ post) ∧
    (∃ pre post, entryFunctionPath fromHex s moduleName functionName =
      pre ++ convertIf fromHex s ++ post) ∧
    (∃ pre post, resourcesPath fromHex s = pre ++ convertIf fromHex s ++ post) ∧
    (∃ pre post, resourcePath fromHex s = pre ++ convertIf fromHex s ++ post) ∧
    (∃ pre post, storageFeePath fromHex s = pre ++ convertIf fromHex s ++ post) := by
  refine ⟨?_, ?_, ⟨"/initia/move/v1/accounts/", "/modules", rfl⟩,
    ⟨"/initia/move/v1/accounts/", "/modules/" ++ moduleName, ?_⟩,
    ⟨"/initia/move/v1/accounts/",
      "/modules/" ++ moduleName ++ "/entry_functions/" ++ functionName, ?_⟩,
    ⟨"/initia/move/v1/accounts/", "/resources", rfl⟩,
    ⟨"/initia/move/v1/accounts/", "/resources/by_struct_tag", rfl⟩,
    ⟨"/initia/move/v1/storage_fees/", "", ?_⟩⟩
  · intro h
    rw [convertIf, h]
    rfl
  · intro h
    rw [convertIf, h]
    rfl
  · rw [modulePath, String.append_assoc]
  · rw [entryFunctionPath]
    simp only [String.append_assoc]
  · rw [storageFeePath, String.append_empty]

theorem convertIf_spec_witness :
    convertIf (fun _ => "converted") "init1abc" = "init1abc" ∧
    convertIf (fun _ => "converted") "0x1" = "converted" :=
  ⟨(convertIf_spec (fun _ => "converted") "init1abc" "m" "f").1 (by decide),
   (convertIf_spec (fun _ => "converted") "0x1" "m" "f").2.1 (by decide)⟩

end Initia
